import Mathlib

/-!
Verification of `clamwin_updater.py` (ClamWin Database Updater).

The script downloads three fixed virus-definition files into a database
directory, optionally rotating one backup per file first, and exits 0 iff
all three downloads succeeded.

Shallow embedding conventions:
* A filesystem path is a list of components (`os.path.join a b` becomes
  `a ++ [b]`); the filesystem is an association list of file paths to byte
  contents plus a list of existing directory paths.
* Network and OS effects are supplied by oracles: `Net` maps a URL to the
  outcome of `urllib.request.urlopen` (HTTP error / URL error / other
  exception / a streamed response), and `BEnv` says which `os.makedirs`,
  `os.remove`, `os.rename` calls raise.
* Printed output is modelled as a list of `Msg` values, one per `print`
  call, carrying the data the format string interpolates.
-/

namespace ClamWin

/-- A filesystem path, as a list of components. `os.path.join d f = d ++ [f]`. -/
abbrev Path := List String

/-- Byte content of a file, as a list of byte values. -/
abbrev Content := List Nat

/-- `os.path.basename`: the last path component. -/
def basename (p : Path) : String := p.getLast?.getD ""

/-- The filesystem: existing directories and a map from file path to content. -/
structure FS where
  dirs : List Path
  files : List (Path × Content)
deriving DecidableEq, Repr

/-- Content of the file at `p`, if one exists. -/
def FS.lookupFile (fs : FS) (p : Path) : Option Content := fs.files.lookup p

/-- `os.path.exists`: true if `p` is an existing directory or file. -/
def FS.pathExists (fs : FS) (p : Path) : Bool :=
  fs.dirs.contains p || (fs.files.lookup p).isSome

/-- `open(p, 'wb')` followed by writing `c`: truncate/replace the file at `p`. -/
def FS.setFile (fs : FS) (p : Path) (c : Content) : FS :=
  { fs with files := (p, c) :: fs.files.filter (fun e => !(e.1 == p)) }

/-- `os.remove p`. -/
def FS.removeFile (fs : FS) (p : Path) : FS :=
  { fs with files := fs.files.filter (fun e => !(e.1 == p)) }

/-- `os.rename src dst` (for a file; no-op when no file is at `src`). -/
def FS.rename (fs : FS) (src dst : Path) : FS :=
  match fs.lookupFile src with
  | some c => (fs.removeFile src).setFile dst c
  | none => fs

/-- `os.makedirs p`: recursively create `p` and its parents. -/
def FS.makedirs (fs : FS) (p : Path) : FS :=
  { fs with dirs := p.inits ++ fs.dirs }

/-- One `print` call, carrying the interpolated data. -/
inductive Msg where
  | downloading (name : String)
  | progress (pct : ℚ) (downloaded total : Nat)
  | downloadOk (name : String)
  | httpErr (code : Nat) (reason : String)
  | blockedHint
  | urlErr (reason : String)
  | otherErr (e : String)
  | createdBackupDir (p : Path)
  | backedUp (name : String)
  | fileBackupWarning (name : String) (e : String)
  | backupWarning (e : String)
  | noFilesToBackup
  | backupHeader
  | downloadHeader (dest : Path)
  | dirMissing (p : Path)
  | creatingDir
  | createdDir (p : Path)
  | mkdirFailed (e : String)
  | summary (succ total : Nat)
  | updateOk
  | updateFailed
  | partialUpdate
  | blank
  | banner
  | versionBanner
deriving DecidableEq, Repr

/-- The fixed filename-to-URL table `DATABASE_URLS` (dict in insertion order). -/
def DATABASE_URLS : List (String × String) :=
  [("main.cvd", "https://database.clamav.net/main.cvd"),
   ("daily.cvd", "https://database.clamav.net/daily.cvd"),
   ("bytecode.cvd", "https://database.clamav.net/bytecode.cvd")]

/-- The three target filenames, in iteration order. -/
def targetNames : List String := DATABASE_URLS.map Prod.fst

/-- Outcome of `urllib.request.urlopen` on one URL: an `HTTPError` with a
status code, a `URLError`, any other exception, or a response carrying an
optional `content-length` header and a stream of chunks as delivered by
successive `response.read(8192)` calls. `midFail = some e` means an
exception `e` is raised during streaming, after the listed chunks. -/
inductive HttpResult where
  | httpError (code : Nat) (reason : String)
  | urlError (reason : String)
  | otherError (e : String)
  | ok (contentLength : Option Nat) (chunks : List Content) (midFail : Option String)

/-- The network oracle: outcome of opening each URL during this run. -/
abbrev Net := String → HttpResult

/-- Progress percentage `(downloaded / total_size) * 100`. -/
def mkPct (downloaded totalSize : Nat) : ℚ :=
  (downloaded : ℚ) / (totalSize : ℚ) * 100

/-- The `while True` read/write loop of `download_file`: consume chunks until
an empty read, returning the bytes written and the progress messages printed
(one after each chunk when `totalSize > 0`). -/
def downloadLoop (totalSize downloaded : Nat) : List Content → Content × List Msg
  | [] => ([], [])
  | c :: rest =>
    if c.isEmpty then ([], [])
    else
      let dl := downloaded + c.length
      let (content, msgs) := downloadLoop totalSize dl rest
      (c ++ content,
        (if 0 < totalSize then [Msg.progress (mkPct dl totalSize) dl totalSize] else []) ++ msgs)

/-- Result of `download_file`: its boolean return value, the filesystem
after it, and its printed output. -/
structure DlResult where
  ok : Bool
  fs : FS
  out : List Msg
deriving Repr

/-- `download_file(url, destination)`: stream the URL to the destination,
converting every failure into a `False` return. -/
def download_file (net : Net) (url : String) (destination : Path) (fs : FS) : DlResult :=
  let name := basename destination
  match net url with
  | .httpError code reason =>
      ⟨false, fs,
        [.downloading name, .httpErr code reason] ++
          (if code = 403 then [.blockedHint] else [])⟩
  | .urlError reason => ⟨false, fs, [.downloading name, .urlErr reason]⟩
  | .otherError e => ⟨false, fs, [.downloading name, .otherErr e]⟩
  | .ok contentLength chunks midFail =>
      let totalSize := contentLength.getD 0
      let (content, pmsgs) := downloadLoop totalSize 0 chunks
      let fs' := fs.setFile destination content
      match midFail with
      | none => ⟨true, fs', [.downloading name] ++ pmsgs ++ [.downloadOk name]⟩
      | some e => ⟨false, fs', [.downloading name] ++ pmsgs ++ [.otherErr e]⟩

/-- OS-failure oracle for `backup_existing_files`: which `os.makedirs`,
`os.remove` and `os.rename` calls raise, and with what message. -/
structure BEnv where
  mkdirRaises : Option String
  removeRaises : Path → Option String
  renameRaises : Path → Path → Option String

/-- The `for filename in DATABASE_URLS.keys()` loop of
`backup_existing_files`, threading the filesystem, the `has_files` flag and
the printed output. `Except.error` is an exception escaping to the outer
`except` handler (a failing `os.makedirs`). -/
def backupLoop (env : BEnv) (dbDir : Path) :
    List String → FS → Bool → List Msg → Except (FS × List Msg × String) (FS × Bool × List Msg)
  | [], fs, hasFiles, msgs => .ok (fs, hasFiles, msgs)
  | f :: rest, fs, hasFiles, msgs =>
    let filepath := dbDir ++ [f]
    if fs.pathExists filepath then
      let backupDir := dbDir ++ ["backup"]
      let step2 : Except (FS × List Msg × String) (FS × List Msg) :=
        if fs.pathExists backupDir then .ok (fs, msgs)
        else
          match env.mkdirRaises with
          | some e => .error (fs, msgs, e)
          | none => .ok (fs.makedirs backupDir, msgs ++ [.createdBackupDir backupDir])
      match step2 with
      | .error r => .error r
      | .ok (fs1, msgs1) =>
        let backupPath := dbDir ++ ["backup", f]
        -- inner try: remove the old backup if present, then rename
        let step3 : FS × List Msg :=
          if fs1.pathExists backupPath then
            match env.removeRaises backupPath with
            | some e => (fs1, msgs1 ++ [.fileBackupWarning f e])
            | none =>
              let fs2 := fs1.removeFile backupPath
              match env.renameRaises filepath backupPath with
              | some e => (fs2, msgs1 ++ [.fileBackupWarning f e])
              | none => (fs2.rename filepath backupPath, msgs1 ++ [.backedUp f])
          else
            match env.renameRaises filepath backupPath with
            | some e => (fs1, msgs1 ++ [.fileBackupWarning f e])
            | none => (fs1.rename filepath backupPath, msgs1 ++ [.backedUp f])
        backupLoop env dbDir rest step3.1 true step3.2
    else
      backupLoop env dbDir rest fs hasFiles msgs

/-- `backup_existing_files(db_dir)`: rotate each existing target file into
the `backup` subdirectory; best-effort, always returns `True`. -/
def backup_existing_files (env : BEnv) (dbDir : Path) (fs : FS) : Bool × FS × List Msg :=
  match backupLoop env dbDir targetNames fs false [] with
  | .error (fs', msgs, e) => (true, fs', msgs ++ [.backupWarning e])
  | .ok (fs', hasFiles, msgs) =>
      (true, fs', msgs ++ (if hasFiles then [] else [.noFilesToBackup]))

/-- Environment of one run: the network oracle, the backup OS oracle, and
whether `os.makedirs(db_dir)` raises. -/
structure UEnv where
  net : Net
  benv : BEnv
  dbMkdirRaises : Option String

/-- The `for filename, url in DATABASE_URLS.items()` download loop of
`update_database`: thread the filesystem, collect output, and record each
target's boolean download result. -/
def runDownloads (net : Net) (dbDir : Path) :
    List (String × String) → FS → FS × List Msg × List (String × Bool)
  | [], fs => (fs, [], [])
  | (f, url) :: rest, fs =>
    let r := download_file net url (dbDir ++ [f]) fs
    let (fs', msgs, results) := runDownloads net dbDir rest r.fs
    (fs', r.out ++ [Msg.blank] ++ msgs, (f, r.ok) :: results)

/-- Result of `update_database`: its boolean return value, the filesystem
after it, its printed output, and the per-target download results
(empty when the run aborted before downloading). -/
structure RunOutcome where
  ok : Bool
  fs : FS
  out : List Msg
  results : List (String × Bool)

/-- The part of `update_database` after the destination directory is known
to exist: optional backup rotation, the three downloads, and the summary. -/
def updateAfterPrep (env : UEnv) (dbDir : Path) (backup : Bool) (fs : FS)
    (msgs0 : List Msg) : RunOutcome :=
  let (fs1, bmsgs) :=
    if backup then
      let b := backup_existing_files env.benv dbDir fs
      (b.2.1, [Msg.backupHeader] ++ b.2.2)
    else (fs, [])
  let (fs2, dmsgs, results) := runDownloads env.net dbDir DATABASE_URLS fs1
  let successCount := results.countP (fun r => r.2)
  let totalCount := DATABASE_URLS.length
  let allOk := successCount == totalCount
  ⟨allOk, fs2,
    msgs0 ++ bmsgs ++ [.downloadHeader dbDir] ++ dmsgs ++ [.summary successCount totalCount] ++
      (if allOk then [.updateOk]
       else [.updateFailed] ++ (if 0 < successCount then [.partialUpdate] else [])),
    results⟩

/-- `update_database(db_dir, backup)`: ensure the directory, optionally
back up, download all targets, and return `True` iff all succeeded. -/
def update_database (env : UEnv) (dbDir : Path) (backup : Bool) (fs : FS) : RunOutcome :=
  if fs.pathExists dbDir then updateAfterPrep env dbDir backup fs []
  else
    match env.dbMkdirRaises with
    | some e => ⟨false, fs, [.dirMissing dbDir, .creatingDir, .mkdirFailed e], []⟩
    | none =>
        updateAfterPrep env dbDir backup (fs.makedirs dbDir)
          [.dirMissing dbDir, .creatingDir, .createdDir dbDir]

/-- Parsed command line: `--version`, or a run with `--db-dir` and
`--no-backup` settings. -/
inductive Cli where
  | version
  | run (dbDir : Path) (noBackup : Bool)

/-- `main()`: parse arguments, run the update, and exit with `0` on full
success and `1` otherwise (`--version` exits `0` after printing). -/
def main (env : UEnv) (fs : FS) : Cli → Nat × FS × List Msg
  | .version => (0, fs, [.versionBanner])
  | .run dbDir noBackup =>
    let u := update_database env dbDir (!noBackup) fs
    ((if u.ok then 0 else 1), u.fs, [.banner] ++ u.out)

end ClamWin

namespace ClamWin

/-! ### Helper lemmas about the filesystem model -/

/-- Appending to a fixed prefix is injective in the suffix. -/
theorem append_ne_append (d : Path) {a b : List String} (h : a ≠ b) : d ++ a ≠ d ++ b :=
  fun hc => h (List.append_cancel_left hc)

theorem lookup_filter_ne {l : List (Path × Content)} {p q : Path} (h : p ≠ q) :
    (l.filter (fun e => !(e.1 == q))).lookup p = l.lookup p := by
  induction l with
  | nil => rfl
  | cons e rest ih =>
    rcases e with ⟨k, v⟩
    by_cases hkq : k = q
    · have h2 : (p == k) = false := by simp [hkq, h]
      have h3 : (p == q) = false := by simp [h]
      simp [List.filter_cons, hkq, List.lookup, h2, h3, ih]
    · by_cases hpk : p = k
      · simp [List.filter_cons, hkq, List.lookup, hpk]
      · have h2 : (p == k) = false := by simp [hpk]
        simp [List.filter_cons, hkq, List.lookup, h2, ih]

theorem FS.lookupFile_setFile_self (fs : FS) (p : Path) (c : Content) :
    (fs.setFile p c).lookupFile p = some c := by
  simp [FS.setFile, FS.lookupFile, List.lookup]

theorem FS.lookupFile_setFile_ne (fs : FS) {p q : Path} (c : Content) (h : p ≠ q) :
    (fs.setFile q c).lookupFile p = fs.lookupFile p := by
  have : (p == q) = false := by simp [h]
  simp [FS.setFile, FS.lookupFile, List.lookup, this, lookup_filter_ne h]

theorem FS.lookupFile_removeFile_ne (fs : FS) {p q : Path} (h : p ≠ q) :
    (fs.removeFile q).lookupFile p = fs.lookupFile p := by
  simp [FS.removeFile, FS.lookupFile, lookup_filter_ne h]

theorem FS.lookupFile_rename_ne (fs : FS) {p src dst : Path} (h1 : p ≠ src) (h2 : p ≠ dst) :
    (fs.rename src dst).lookupFile p = fs.lookupFile p := by
  unfold FS.rename
  cases hs : fs.lookupFile src with
  | none => rfl
  | some c =>
      rw [FS.lookupFile_setFile_ne _ _ h2, FS.lookupFile_removeFile_ne _ h1]

theorem FS.dirs_setFile (fs : FS) (p : Path) (c : Content) : (fs.setFile p c).dirs = fs.dirs := rfl

theorem FS.dirs_removeFile (fs : FS) (p : Path) : (fs.removeFile p).dirs = fs.dirs := rfl

theorem FS.dirs_rename (fs : FS) (src dst : Path) : (fs.rename src dst).dirs = fs.dirs := by
  unfold FS.rename
  cases fs.lookupFile src <;> rfl

theorem FS.pathExists_setFile_ne (fs : FS) {p q : Path} (c : Content) (h : p ≠ q) :
    (fs.setFile q c).pathExists p = fs.pathExists p := by
  simp [FS.pathExists, show ((fs.setFile q c).dirs = fs.dirs) from rfl]
  rw [show ((fs.setFile q c).files.lookup p) = (fs.setFile q c).lookupFile p from rfl,
    FS.lookupFile_setFile_ne _ _ h]
  rfl

theorem FS.pathExists_removeFile_ne (fs : FS) {p q : Path} (h : p ≠ q) :
    (fs.removeFile q).pathExists p = fs.pathExists p := by
  simp [FS.pathExists, show ((fs.removeFile q).dirs = fs.dirs) from rfl]
  rw [show ((fs.removeFile q).files.lookup p) = (fs.removeFile q).lookupFile p from rfl,
    FS.lookupFile_removeFile_ne _ h]
  rfl

theorem FS.pathExists_rename_ne (fs : FS) {p src dst : Path} (h1 : p ≠ src) (h2 : p ≠ dst) :
    (fs.rename src dst).pathExists p = fs.pathExists p := by
  unfold FS.pathExists
  rw [FS.dirs_rename,
    show ((fs.rename src dst).files.lookup p) = (fs.rename src dst).lookupFile p from rfl,
    FS.lookupFile_rename_ne _ h1 h2]
  rfl

theorem FS.pathExists_makedirs_of (fs : FS) {p : Path} (q : Path) (h : fs.pathExists p = true) :
    (fs.makedirs q).pathExists p = true := by
  unfold FS.pathExists at h ⊢
  unfold FS.makedirs
  simp only [List.contains, List.elem_eq_mem, Bool.or_eq_true, decide_eq_true_eq,
    List.mem_append] at h ⊢
  tauto

/-! ### Helper lemmas about `download_file` -/

/-- Whether `msg` is a progress `print`. -/
def isProgress : Msg → Bool
  | .progress _ _ _ => true
  | _ => false

/-- The return value `download_file` produces for a given `urlopen` outcome:
`True` exactly on a fully streamed body. -/
def dlOutcome : HttpResult → Bool
  | .ok _ _ none => true
  | _ => false

/-- The bytes written by the read/write loop: the chunks delivered before
the first empty read, concatenated. -/
theorem downloadLoop_content (t d : Nat) (chunks : List Content) :
    (downloadLoop t d chunks).1 = (chunks.takeWhile (fun c => !c.isEmpty)).flatten := by
  induction chunks generalizing d with
  | nil => rfl
  | cons c rest ih =>
    by_cases hc : c.isEmpty
    · simp [downloadLoop, hc, List.takeWhile_cons]
    · simp [downloadLoop, hc, List.takeWhile_cons, ih]

/-- With a zero total size no progress message is printed. -/
theorem downloadLoop_msgs_of_zero (d : Nat) (chunks : List Content) :
    (downloadLoop 0 d chunks).2 = [] := by
  induction chunks generalizing d with
  | nil => rfl
  | cons c rest ih =>
    by_cases hc : c.isEmpty
    · simp [downloadLoop, hc]
    · simp [downloadLoop, hc, ih]

/-- With a positive total size, exactly one progress message is printed per
chunk consumed. -/
theorem downloadLoop_count_progress (t d : Nat) (ht : 0 < t) (chunks : List Content) :
    ((downloadLoop t d chunks).2).countP isProgress
      = (chunks.takeWhile (fun c => !c.isEmpty)).length := by
  induction chunks generalizing d with
  | nil => rfl
  | cons c rest ih =>
    by_cases hc : c.isEmpty
    · simp [downloadLoop, hc, List.takeWhile_cons]
    · simp [downloadLoop, hc, List.takeWhile_cons, ht, List.countP_cons, isProgress, ih]

/-- Every message printed by the read/write loop is a progress report of the
form `(k / totalSize) * 100` for the cumulative byte count `k`. -/
theorem downloadLoop_msgs_shape (t d : Nat) (chunks : List Content) :
    ∀ m ∈ (downloadLoop t d chunks).2, ∃ k, m = Msg.progress (mkPct k t) k t := by
  induction chunks generalizing d with
  | nil => intro m hm; simp [downloadLoop] at hm
  | cons c rest ih =>
    intro m hm
    by_cases hc : c.isEmpty
    · simp [downloadLoop, hc] at hm
    · simp only [downloadLoop, hc, if_false, Bool.false_eq_true, List.mem_append] at hm
      rcases hm with hm | hm
      · by_cases ht : 0 < t
        · simp [ht] at hm
          exact ⟨d + c.length, hm⟩
        · simp [ht] at hm
      · exact ih _ _ hm

/-- `download_file` returns exactly `dlOutcome` of the `urlopen` outcome. -/
theorem download_file_ok_eq (net : Net) (url : String) (dest : Path) (fs : FS) :
    (download_file net url dest fs).ok = dlOutcome (net url) := by
  unfold download_file dlOutcome
  cases h : net url with
  | httpError code reason => simp
  | urlError reason => simp
  | otherError e => simp
  | ok cl chunks mf => cases mf <;> simp

/-- `download_file` never touches a file other than its destination. -/
theorem download_file_lookup_ne (net : Net) (url : String) {dest p : Path} (fs : FS)
    (h : p ≠ dest) :
    (download_file net url dest fs).fs.lookupFile p = fs.lookupFile p := by
  unfold download_file
  cases net url with
  | httpError code reason => simp
  | urlError reason => simp
  | otherError e => simp
  | ok cl chunks mf =>
      cases mf <;> simp [FS.lookupFile_setFile_ne _ _ h]

/-- `download_file` never creates or removes a directory. -/
theorem download_file_dirs (net : Net) (url : String) (dest : Path) (fs : FS) :
    (download_file net url dest fs).fs.dirs = fs.dirs := by
  unfold download_file
  cases net url with
  | httpError code reason => rfl
  | urlError reason => rfl
  | otherError e => rfl
  | ok cl chunks mf => cases mf <;> rfl

/-- Every call to `download_file` announces its target first. -/
theorem download_file_downloading_mem (net : Net) (url : String) (dest : Path) (fs : FS) :
    Msg.downloading (basename dest) ∈ (download_file net url dest fs).out := by
  unfold download_file
  cases net url with
  | httpError code reason => simp
  | urlError reason => simp
  | otherError e => simp
  | ok cl chunks mf => cases mf <;> simp

/-! ### Helper lemmas about the download loop of `update_database` -/

/-- Each target's recorded result is `dlOutcome` of its own URL's outcome;
in particular every listed target is attempted, whatever happened before. -/
theorem runDownloads_results (net : Net) (dbDir : Path) (l : List (String × String)) (fs : FS) :
    (runDownloads net dbDir l fs).2.2 = l.map (fun e => (e.1, dlOutcome (net e.2))) := by
  induction l generalizing fs with
  | nil => rfl
  | cons e rest ih =>
    rcases e with ⟨f, url⟩
    simp [runDownloads, ih, download_file_ok_eq]

/-- One result per listed target. -/
theorem runDownloads_length (net : Net) (dbDir : Path) (l : List (String × String)) (fs : FS) :
    (runDownloads net dbDir l fs).2.2.length = l.length := by
  simp [runDownloads_results]

/-- The downloads only write to the targets' destination paths. -/
theorem runDownloads_lookup_ne (net : Net) (dbDir : Path) (l : List (String × String))
    (fs : FS) {p : Path} (h : ∀ e ∈ l, p ≠ dbDir ++ [e.1]) :
    (runDownloads net dbDir l fs).1.lookupFile p = fs.lookupFile p := by
  induction l generalizing fs with
  | nil => rfl
  | cons e rest ih =>
    rcases e with ⟨f, url⟩
    have h1 : p ≠ dbDir ++ [f] := h (f, url) (by simp)
    have h2 : ∀ e ∈ rest, p ≠ dbDir ++ [e.1] := fun e he => h e (by simp [he])
    simp [runDownloads, ih _ h2, download_file_lookup_ne _ _ _ h1]

/-- The downloads create no directory. -/
theorem runDownloads_dirs (net : Net) (dbDir : Path) (l : List (String × String)) (fs : FS) :
    (runDownloads net dbDir l fs).1.dirs = fs.dirs := by
  induction l generalizing fs with
  | nil => rfl
  | cons e rest ih =>
    rcases e with ⟨f, url⟩
    simp [runDownloads, ih, download_file_dirs]

/-- The output of one step of the download loop. -/
theorem runDownloads_out_cons (net : Net) (dbDir : Path) (f url : String)
    (rest : List (String × String)) (fs : FS) :
    (runDownloads net dbDir ((f, url) :: rest) fs).2.1
      = (download_file net url (dbDir ++ [f]) fs).out ++ [Msg.blank]
        ++ (runDownloads net dbDir rest (download_file net url (dbDir ++ [f]) fs).fs).2.1 := by
  simp [runDownloads]

/-- Every listed target is announced (hence attempted) during the loop. -/
theorem runDownloads_downloading_mem (net : Net) (dbDir : Path)
    {l : List (String × String)} (fs : FS) {f url : String} (h : (f, url) ∈ l) :
    Msg.downloading (basename (dbDir ++ [f])) ∈ (runDownloads net dbDir l fs).2.1 := by
  induction l generalizing fs with
  | nil => simp at h
  | cons e rest ih =>
    rcases e with ⟨g, u⟩
    rcases List.mem_cons.mp h with h' | h'
    · rw [Prod.mk.injEq] at h'
      obtain ⟨h1, h2⟩ := h'
      subst h1; subst h2
      rw [runDownloads_out_cons]
      simp only [List.mem_append]
      exact Or.inl (Or.inl (download_file_downloading_mem net url (dbDir ++ [f]) fs))
    · rw [runDownloads_out_cons]
      simp only [List.mem_append]
      exact Or.inr (ih _ h')

/-! ### Claims C9, C3, C10 -/

/-- **C9**: `backup_existing_files` returns `True` on every execution path —
including when nothing needs backing up and when an exception escapes the
rotation loop — so its boolean result can never be `False`. -/
theorem C9_backup_always_returns_true (env : BEnv) (dbDir : Path) (fs : FS) :
    (backup_existing_files env dbDir fs).1 = true := by
  unfold backup_existing_files
  cases backupLoop env dbDir targetNames fs false [] with
  | error r => rfl
  | ok r => rfl

/-- **C3**: `download_file` converts every failure of `urlopen` into the
return value `False` with a classified report (HTTP error with its code and
a distinct blocking hint exactly for 403, URL error, or any other error),
and returns `True` exactly on a fully streamed body. -/
theorem C3_download_file_never_raises (net : Net) (url : String) (dest : Path) (fs : FS) :
    (∀ code reason, net url = .httpError code reason →
       (download_file net url dest fs).ok = false ∧
       Msg.httpErr code reason ∈ (download_file net url dest fs).out ∧
       (Msg.blockedHint ∈ (download_file net url dest fs).out ↔ code = 403)) ∧
    (∀ reason, net url = .urlError reason →
       (download_file net url dest fs).ok = false ∧
       Msg.urlErr reason ∈ (download_file net url dest fs).out) ∧
    (∀ e, net url = .otherError e →
       (download_file net url dest fs).ok = false ∧
       Msg.otherErr e ∈ (download_file net url dest fs).out) ∧
    (∀ cl chunks e, net url = .ok cl chunks (some e) →
       (download_file net url dest fs).ok = false ∧
       Msg.otherErr e ∈ (download_file net url dest fs).out) ∧
    (∀ cl chunks, net url = .ok cl chunks none →
       (download_file net url dest fs).ok = true) := by
  refine ⟨?_, ?_, ?_, ?_, ?_⟩
  · intro code reason h
    refine ⟨by simp [download_file, h], by simp [download_file, h], ?_⟩
    by_cases hc : code = 403 <;> simp [download_file, h, hc]
  · intro reason h
    exact ⟨by simp [download_file, h], by simp [download_file, h]⟩
  · intro e h
    exact ⟨by simp [download_file, h], by simp [download_file, h]⟩
  · intro cl chunks e h
    exact ⟨by simp [download_file, h], by simp [download_file, h]⟩
  · intro cl chunks h
    simp [download_file, h]

/-- A network oracle answering HTTP 403 on every URL. -/
def net403 : Net := fun _ => .httpError 403 "Forbidden"

/-- The empty filesystem. -/
def fsEmpty : FS := ⟨[], []⟩

/-- Witness for C3 at a concrete 403 response. -/
theorem C3_witness :
    (download_file net403 "u" ["db", "main.cvd"] fsEmpty).ok = false ∧
    Msg.httpErr 403 "Forbidden" ∈ (download_file net403 "u" ["db", "main.cvd"] fsEmpty).out ∧
    (Msg.blockedHint ∈ (download_file net403 "u" ["db", "main.cvd"] fsEmpty).out ↔ 403 = 403) :=
  (C3_download_file_never_raises net403 "u" ["db", "main.cvd"] fsEmpty).1 403 "Forbidden" rfl

/-- **C10**: when `urlopen` itself fails (HTTP error, URL error, or any
other exception while opening), `download_file` returns `False` with the
filesystem — in particular any pre-existing destination file — untouched;
the destination's content can only change when a response body was
obtained. -/
theorem C10_no_write_without_response (net : Net) (url : String) (dest : Path) (fs : FS) :
    (∀ code reason, net url = .httpError code reason →
       (download_file net url dest fs).fs = fs ∧ (download_file net url dest fs).ok = false) ∧
    (∀ reason, net url = .urlError reason →
       (download_file net url dest fs).fs = fs ∧ (download_file net url dest fs).ok = false) ∧
    (∀ e, net url = .otherError e →
       (download_file net url dest fs).fs = fs ∧ (download_file net url dest fs).ok = false) ∧
    ((download_file net url dest fs).fs.lookupFile dest ≠ fs.lookupFile dest →
       ∃ cl chunks mf, net url = .ok cl chunks mf) := by
  refine ⟨?_, ?_, ?_, ?_⟩
  · intro code reason h; exact ⟨by simp [download_file, h], by simp [download_file, h]⟩
  · intro reason h; exact ⟨by simp [download_file, h], by simp [download_file, h]⟩
  · intro e h; exact ⟨by simp [download_file, h], by simp [download_file, h]⟩
  · intro hne
    cases h : net url with
    | httpError code reason => exact absurd (by simp [download_file, h]) hne
    | urlError reason => exact absurd (by simp [download_file, h]) hne
    | otherError e => exact absurd (by simp [download_file, h]) hne
    | ok cl chunks mf => exact ⟨cl, chunks, mf, rfl⟩

/-- A network oracle answering a URL error on every URL. -/
def netUrlErr : Net := fun _ => .urlError "dns failure"

/-- Witness for C10 at a concrete transport error. -/
theorem C10_witness :
    (download_file netUrlErr "u" ["db", "daily.cvd"] fsEmpty).fs = fsEmpty ∧
    (download_file netUrlErr "u" ["db", "daily.cvd"] fsEmpty).ok = false :=
  (C10_no_write_without_response netUrlErr "u" ["db", "daily.cvd"] fsEmpty).2.1
    "dns failure" rfl

/-! ### Helper lemmas about `update_database` -/

/-- After the directory is prepared, every run records one result per
target, namely `dlOutcome` of that target's URL. -/
theorem updateAfterPrep_results (env : UEnv) (dbDir : Path) (b : Bool) (fs : FS)
    (msgs0 : List Msg) :
    (updateAfterPrep env dbDir b fs msgs0).results
      = DATABASE_URLS.map (fun e => (e.1, dlOutcome (env.net e.2))) := by
  unfold updateAfterPrep
  by_cases hb : b <;> simp [hb, runDownloads_results]

/-- The boolean result of a prepared run is `success tally = 3`. -/
theorem updateAfterPrep_ok (env : UEnv) (dbDir : Path) (b : Bool) (fs : FS)
    (msgs0 : List Msg) :
    (updateAfterPrep env dbDir b fs msgs0).ok
      = ((updateAfterPrep env dbDir b fs msgs0).results.countP (fun r => r.2) == 3) := by
  unfold updateAfterPrep
  by_cases hb : b <;> simp [hb, DATABASE_URLS]

/-- `update_database` returns `True` exactly when the success tally over its
recorded per-target results reaches the target count 3. -/
theorem update_database_ok_eq (env : UEnv) (dbDir : Path) (b : Bool) (fs : FS) :
    (update_database env dbDir b fs).ok
      = ((update_database env dbDir b fs).results.countP (fun r => r.2) == 3) := by
  unfold update_database
  by_cases h : fs.pathExists dbDir
  · simp only [h, if_true]
    exact updateAfterPrep_ok ..
  · cases hm : env.dbMkdirRaises with
    | some e => simp [h]
    | none =>
        simp only [h, Bool.false_eq_true, if_false]
        exact updateAfterPrep_ok ..

/-- A run either aborted before downloading (no results) or attempted all
three targets. -/
theorem update_database_results_length (env : UEnv) (dbDir : Path) (b : Bool) (fs : FS) :
    (update_database env dbDir b fs).results.length = 3 ∨
      (update_database env dbDir b fs).results = [] := by
  unfold update_database
  by_cases h : fs.pathExists dbDir
  · simp [h, updateAfterPrep_results, DATABASE_URLS]
  · cases hm : env.dbMkdirRaises with
    | some e => simp [h]
    | none => simp [h, updateAfterPrep_results, DATABASE_URLS]

/-! ### Claims C1 and C2 -/

/-- **C1**: the process exit status is 0 iff all three targets downloaded
successfully; otherwise it is 1. `update_database` returns `True` exactly
when the success tally equals the target count 3, and `main` maps `True` to
exit 0 and `False` to exit 1. -/
theorem C1_exit_status_iff_all_downloads (env : UEnv) (fs : FS) (dbDir : Path)
    (noBackup : Bool) :
    ((update_database env dbDir (!noBackup) fs).ok = true ↔
       (update_database env dbDir (!noBackup) fs).results.countP (fun r => r.2) = 3) ∧
    ((main env fs (.run dbDir noBackup)).1
       = if (update_database env dbDir (!noBackup) fs).ok then 0 else 1) ∧
    ((main env fs (.run dbDir noBackup)).1 = 0 ↔
       ((update_database env dbDir (!noBackup) fs).results.length = 3 ∧
        ∀ r ∈ (update_database env dbDir (!noBackup) fs).results, r.2 = true)) ∧
    ((main env fs (.run dbDir noBackup)).1 = 0 ∨ (main env fs (.run dbDir noBackup)).1 = 1) := by
  have hok := update_database_ok_eq env dbDir (!noBackup) fs
  have hlen := update_database_results_length env dbDir (!noBackup) fs
  have hmain : (main env fs (.run dbDir noBackup)).1
      = if (update_database env dbDir (!noBackup) fs).ok then 0 else 1 := rfl
  refine ⟨by rw [hok]; simp, hmain, ?_, ?_⟩
  · rw [hmain]
    by_cases ho : (update_database env dbDir (!noBackup) fs).ok = true
    · simp only [ho, if_true]
      have hcount : (update_database env dbDir (!noBackup) fs).results.countP (fun r => r.2) = 3 := by
        rw [hok] at ho; simpa using ho
      rcases hlen with hl | hl
      · constructor
        · intro _
          refine ⟨hl, ?_⟩
          have := List.countP_eq_length.mp (by rw [hcount, hl])
          intro r hr
          simpa using this r hr
        · intro _; trivial
      · rw [hl] at hcount; simp at hcount
    · have ho' : (update_database env dbDir (!noBackup) fs).ok = false :=
        Bool.not_eq_true _ ▸ (by simpa using ho)
      simp only [ho', Bool.false_eq_true, if_false]
      constructor
      · intro h; exact absurd h (by norm_num)
      · rintro ⟨hl, hall⟩
        exfalso
        apply ho
        rw [hok]
        have : (update_database env dbDir (!noBackup) fs).results.countP (fun r => r.2)
            = (update_database env dbDir (!noBackup) fs).results.length :=
          List.countP_eq_length.mpr (fun a ha => by simp [hall a ha])
        simp [this, hl]
  · rw [hmain]
    by_cases ho : (update_database env dbDir (!noBackup) fs).ok <;> simp [ho]

/-- **C2**: if the destination directory is absent and its creation fails,
`update_database` reports the failure and returns `False` with the
filesystem untouched, before any backup rotation or download is attempted;
in every other configuration the run goes on to attempt all three
downloads. -/
theorem C2_fatal_mkdir_aborts_run (env : UEnv) (dbDir : Path) (b : Bool) (fs : FS) :
    (∀ e, fs.pathExists dbDir = false → env.dbMkdirRaises = some e →
       update_database env dbDir b fs
         = ⟨false, fs, [.dirMissing dbDir, .creatingDir, .mkdirFailed e], []⟩) ∧
    (fs.pathExists dbDir = true ∨ env.dbMkdirRaises = none →
       (update_database env dbDir b fs).results.length = 3) := by
  constructor
  · intro e h1 h2
    simp [update_database, h1, h2]
  · intro h
    rcases h with h | h
    · simp [update_database, h, updateAfterPrep_results, DATABASE_URLS]
    · by_cases h1 : fs.pathExists dbDir
      · simp [update_database, h1, updateAfterPrep_results, DATABASE_URLS]
      · simp [update_database, h1, h, updateAfterPrep_results, DATABASE_URLS]

/-- A backup-environment oracle where no OS call fails. -/
def benvNone : BEnv := ⟨none, fun _ => none, fun _ _ => none⟩

/-- A run environment whose `os.makedirs(db_dir)` raises. -/
def envAbort : UEnv := ⟨net403, benvNone, some "permission denied"⟩

/-- Witness for C2: a concrete aborted run. -/
theorem C2_witness :
    update_database envAbort ["db"] true fsEmpty
      = ⟨false, fsEmpty,
          [.dirMissing ["db"], .creatingDir, .mkdirFailed "permission denied"], []⟩ :=
  (C2_fatal_mkdir_aborts_run envAbort ["db"] true fsEmpty).1 "permission denied"
    (by decide) rfl

/-! ### Claims C7 and C5 -/

/-- `os.path.basename(os.path.join(d, f)) = f`. -/
theorem basename_append (d : Path) (f : String) : basename (d ++ [f]) = f := by
  simp [basename, List.getLast?_concat]

/-- The reported percentage is never negative. -/
theorem mkPct_nonneg (d t : Nat) : 0 ≤ mkPct d t := by
  unfold mkPct; positivity

/-- The reported percentage stays at most 100 while the byte count stays
within the announced total. -/
theorem mkPct_le_100 {d t : Nat} (h : d ≤ t) : mkPct d t ≤ 100 := by
  unfold mkPct
  rcases Nat.eq_zero_or_pos t with ht | ht
  · subst ht; simp
  · have hpos : (0 : ℚ) < t := by exact_mod_cast ht
    have h1 : (d : ℚ) / t ≤ 1 := by
      rw [div_le_one hpos]
      exact_mod_cast h
    nlinarith

/-- **C7**: fractional progress is computed and reported after each chunk
exactly when the response carries a positive total content length (one
report per consumed chunk); with the header absent nothing is reported but
the body is still streamed to the destination and the download succeeds.
Every reported percentage is nonnegative, and at most 100 as long as the
byte count is within the announced total. -/
theorem C7_progress_iff_content_length (net : Net) (url : String) (dest : Path) (fs : FS)
    (cl : Option Nat) (chunks : List Content) (mf : Option String)
    (h : net url = .ok cl chunks mf) :
    ((download_file net url dest fs).out.countP isProgress
       = if 0 < cl.getD 0 then (chunks.takeWhile (fun c => !c.isEmpty)).length else 0) ∧
    (cl = none → (download_file net url dest fs).out.countP isProgress = 0) ∧
    (∀ p d t, Msg.progress p d t ∈ (download_file net url dest fs).out →
       0 ≤ p ∧ (d ≤ t → p ≤ 100)) ∧
    ((download_file net url dest fs).fs.lookupFile dest
       = some (chunks.takeWhile (fun c => !c.isEmpty)).flatten) ∧
    (mf = none → (download_file net url dest fs).ok = true) := by
  have hout : (download_file net url dest fs).out
      = [Msg.downloading (basename dest)] ++ (downloadLoop (cl.getD 0) 0 chunks).2
        ++ [(match mf with
             | none => Msg.downloadOk (basename dest)
             | some e => Msg.otherErr e)] := by
    cases mf <;> simp [download_file, h]
  have hcount : (download_file net url dest fs).out.countP isProgress
      = ((downloadLoop (cl.getD 0) 0 chunks).2).countP isProgress := by
    rw [hout]
    cases mf <;> simp [List.countP_append, isProgress, List.countP_cons]
  refine ⟨?_, ?_, ?_, ?_, ?_⟩
  · rw [hcount]
    by_cases hcl : 0 < cl.getD 0
    · simp only [hcl, if_true]
      exact downloadLoop_count_progress _ 0 hcl chunks
    · have h0 : cl.getD 0 = 0 := Nat.eq_zero_of_not_pos hcl
      simp only [hcl, if_false]
      rw [h0, downloadLoop_msgs_of_zero]
      rfl
  · intro hnone
    rw [hcount, hnone]
    rw [show ((none : Option Nat).getD 0) = 0 from rfl, downloadLoop_msgs_of_zero]
    rfl
  · intro p d t hmem
    rw [hout] at hmem
    simp only [List.mem_append, List.mem_singleton, List.mem_cons] at hmem
    have hmem' : Msg.progress p d t ∈ (downloadLoop (cl.getD 0) 0 chunks).2 := by
      rcases hmem with (hmem | hmem) | hmem
      · simp at hmem
      · exact hmem
      · exfalso; cases mf <;> simp_all
    obtain ⟨k, hk⟩ := downloadLoop_msgs_shape (cl.getD 0) 0 chunks _ hmem'
    have hp : p = mkPct k (cl.getD 0) := by injection hk
    have hd : d = k := by injection hk
    have ht : t = cl.getD 0 := by injection hk
    subst hd; subst ht; subst hp
    exact ⟨mkPct_nonneg .., fun hle => mkPct_le_100 hle⟩
  · have : (download_file net url dest fs).fs
        = fs.setFile dest (downloadLoop (cl.getD 0) 0 chunks).1 := by
      cases mf <;> simp [download_file, h]
    rw [this, FS.lookupFile_setFile_self, downloadLoop_content]
  · intro hnone
    subst hnone
    simp [download_file, h]

/-- A network oracle delivering a body of 4 announced bytes in two chunks. -/
def netBody : Net := fun _ => .ok (some 4) [[1, 2], [3, 4]] none

/-- Witness for C7 at a concrete streamed response. -/
theorem C7_witness :
    ((download_file netBody "u" ["db", "main.cvd"] fsEmpty).out.countP isProgress
       = if 0 < (some 4 : Option Nat).getD 0
         then (([[1, 2], [3, 4]] : List Content).takeWhile (fun c => !c.isEmpty)).length
         else 0) ∧
    (download_file netBody "u" ["db", "main.cvd"] fsEmpty).ok = true :=
  ⟨(C7_progress_iff_content_length netBody "u" ["db", "main.cvd"] fsEmpty
      (some 4) [[1, 2], [3, 4]] none rfl).1,
   (C7_progress_iff_content_length netBody "u" ["db", "main.cvd"] fsEmpty
      (some 4) [[1, 2], [3, 4]] none rfl).2.2.2.2 rfl⟩

/-- A download that answered HTTP 403 prints the blocking hint. -/
theorem runDownloads_blockedHint_mem (net : Net) (dbDir : Path)
    {l : List (String × String)} (fs : FS) {f url reason : String}
    (hmem : (f, url) ∈ l) (h : net url = .httpError 403 reason) :
    Msg.blockedHint ∈ (runDownloads net dbDir l fs).2.1 := by
  induction l generalizing fs with
  | nil => simp at hmem
  | cons e rest ih =>
    rcases e with ⟨g, u⟩
    rcases List.mem_cons.mp hmem with h' | h'
    · rw [Prod.mk.injEq] at h'
      obtain ⟨h1, h2⟩ := h'
      subst h1; subst h2
      rw [runDownloads_out_cons]
      simp only [List.mem_append]
      exact Or.inl (Or.inl (by simp [download_file, h]))
    · rw [runDownloads_out_cons]
      simp only [List.mem_append]
      exact Or.inr (ih _ h')

/-- Anything printed by every possible download loop is printed by the
prepared run. -/
theorem updateAfterPrep_mem_of_dl (env : UEnv) (dbDir : Path) (b : Bool) (fs : FS)
    (msgs0 : List Msg) {m : Msg}
    (h : ∀ fs1 : FS, m ∈ (runDownloads env.net dbDir DATABASE_URLS fs1).2.1) :
    m ∈ (updateAfterPrep env dbDir b fs msgs0).out := by
  have h1 := h (backup_existing_files env.benv dbDir fs).2.1
  have h2 := h fs
  unfold updateAfterPrep
  by_cases hb : b <;> simp [hb, List.mem_append] <;> tauto

/-- **C5**: a 403 response for one target leaves the other two targets
still attempted (every target announces its download), records that target
as failed, prints the blocking hint, and makes the process exit with 1. -/
theorem C5_http403_continues_run (env : UEnv) (fs : FS) (dbDir : Path) (noBackup : Bool)
    (fname url reason : String)
    (hmem : (fname, url) ∈ DATABASE_URLS)
    (h403 : env.net url = .httpError 403 reason)
    (hdir : fs.pathExists dbDir = true) :
    (fname, false) ∈ (update_database env dbDir (!noBackup) fs).results ∧
    (update_database env dbDir (!noBackup) fs).results.length = 3 ∧
    (∀ g u, (g, u) ∈ DATABASE_URLS →
       Msg.downloading g ∈ (update_database env dbDir (!noBackup) fs).out) ∧
    Msg.blockedHint ∈ (update_database env dbDir (!noBackup) fs).out ∧
    (main env fs (.run dbDir noBackup)).1 = 1 := by
  have hupd : update_database env dbDir (!noBackup) fs
      = updateAfterPrep env dbDir (!noBackup) fs [] := by
    simp [update_database, hdir]
  have hres : (update_database env dbDir (!noBackup) fs).results
      = DATABASE_URLS.map (fun e => (e.1, dlOutcome (env.net e.2))) := by
    rw [hupd, updateAfterPrep_results]
  refine ⟨?_, ?_, ?_, ?_, ?_⟩
  · rw [hres]
    have : (fname, false) = (fun e : String × String => (e.1, dlOutcome (env.net e.2))) (fname, url) := by
      simp [dlOutcome, h403]
    rw [this]
    exact List.mem_map_of_mem _ hmem
  · rw [hres]; simp [DATABASE_URLS]
  · intro g u hgu
    rw [hupd]
    refine updateAfterPrep_mem_of_dl env dbDir (!noBackup) fs [] (fun fs1 => ?_)
    have := runDownloads_downloading_mem env.net dbDir fs1 hgu
    rwa [basename_append] at this
  · rw [hupd]
    refine updateAfterPrep_mem_of_dl env dbDir (!noBackup) fs [] (fun fs1 => ?_)
    exact runDownloads_blockedHint_mem env.net dbDir fs1 hmem h403
  · have hcount : (update_database env dbDir (!noBackup) fs).results.countP (fun r => r.2) ≠ 3 := by
      rw [hres]
      fin_cases hmem <;>
        · simp only [DATABASE_URLS, List.map_cons, List.map_nil, List.countP_cons,
            List.countP_nil]
          cases hb1 : dlOutcome (env.net "https://database.clamav.net/main.cvd") <;>
            cases hb2 : dlOutcome (env.net "https://database.clamav.net/daily.cvd") <;>
              cases hb3 : dlOutcome (env.net "https://database.clamav.net/bytecode.cvd") <;>
                simp_all [dlOutcome, h403]
    have hok : (update_database env dbDir (!noBackup) fs).ok = false := by
      rw [update_database_ok_eq]
      simpa using hcount
    show (if (update_database env dbDir (!noBackup) fs).ok then 0 else 1) = 1
    rw [hok]
    rfl

/-- A network oracle that answers 403 for the daily target and streams a
body for the others. -/
def net403daily : Net := fun u =>
  if u = "https://database.clamav.net/daily.cvd" then .httpError 403 "Forbidden"
  else .ok (some 4) [[1, 2], [3, 4]] none

/-- A run environment with the 403-on-daily network and no OS failures. -/
def envC5 : UEnv := ⟨net403daily, benvNone, none⟩

/-- A filesystem holding just the (empty) database directory. -/
def fsDb : FS := ⟨[["db"]], []⟩

/-- Witness for C5: a concrete run where the daily target is blocked. -/
theorem C5_witness :
    ("daily.cvd", false) ∈ (update_database envC5 ["db"] (!false) fsDb).results ∧
    (main envC5 fsDb (.run ["db"] false)).1 = 1 := by
  have h := C5_http403_continues_run envC5 fsDb ["db"] false "daily.cvd"
    "https://database.clamav.net/daily.cvd" "Forbidden" (by decide)
    (by simp [envC5, net403daily]) (by decide)
  exact ⟨h.1, h.2.2.2.2⟩

/-! ### Claim C8 -/

/-- Whether a message belongs to the backup step. -/
def isBackupMsg : Msg → Bool
  | .createdBackupDir _ => true
  | .backedUp _ => true
  | .fileBackupWarning _ _ => true
  | .backupWarning _ => true
  | .noFilesToBackup => true
  | .backupHeader => true
  | _ => false

/-- When a body was obtained, the destination file afterwards holds exactly
the streamed bytes. -/
theorem download_file_lookup_dest (net : Net) (url : String) (dest : Path) (fs : FS)
    {cl : Option Nat} {chunks : List Content} {mfOpt : Option String}
    (h : net url = .ok cl chunks mfOpt) :
    (download_file net url dest fs).fs.lookupFile dest
      = some (chunks.takeWhile (fun c => !c.isEmpty)).flatten := by
  have hfs : (download_file net url dest fs).fs
      = fs.setFile dest (downloadLoop (cl.getD 0) 0 chunks).1 := by
    cases mfOpt <;> simp [download_file, h]
  rw [hfs, FS.lookupFile_setFile_self, downloadLoop_content]

/-- No message printed by a download is a backup-step message. -/
theorem download_file_out_not_backup (net : Net) (url : String) (dest : Path) (fs : FS) :
    ∀ m ∈ (download_file net url dest fs).out, isBackupMsg m = false := by
  intro m hm
  cases h : net url with
  | httpError code reason =>
      rw [download_file] at hm
      simp only [h] at hm
      by_cases hc : code = 403
      · simp [hc] at hm
        rcases hm with hm | hm | hm <;> simp [hm, isBackupMsg]
      · simp [hc] at hm
        rcases hm with hm | hm <;> simp [hm, isBackupMsg]
  | urlError reason =>
      simp [download_file, h] at hm
      rcases hm with hm | hm <;> simp [hm, isBackupMsg]
  | otherError e =>
      simp [download_file, h] at hm
      rcases hm with hm | hm <;> simp [hm, isBackupMsg]
  | ok cl chunks mfOpt =>
      have hout : (download_file net url dest fs).out
          = [Msg.downloading (basename dest)] ++ (downloadLoop (cl.getD 0) 0 chunks).2
            ++ [(match mfOpt with
                 | none => Msg.downloadOk (basename dest)
                 | some e => Msg.otherErr e)] := by
        cases mfOpt <;> simp [download_file, h]
      rw [hout] at hm
      simp only [List.mem_append, List.mem_singleton, List.mem_cons] at hm
      rcases hm with (hm | hm) | hm
      · simp at hm; simp [hm, isBackupMsg]
      · obtain ⟨k, hk⟩ := downloadLoop_msgs_shape (cl.getD 0) 0 chunks m hm
        simp [hk, isBackupMsg]
      · cases mfOpt <;> simp_all [isBackupMsg]

/-- No message printed by the download loop is a backup-step message. -/
theorem runDownloads_out_not_backup (net : Net) (dbDir : Path)
    (l : List (String × String)) (fs : FS) :
    ∀ m ∈ (runDownloads net dbDir l fs).2.1, isBackupMsg m = false := by
  induction l generalizing fs with
  | nil => intro m hm; simp [runDownloads] at hm
  | cons e rest ih =>
    rcases e with ⟨f, url⟩
    intro m hm
    rw [runDownloads_out_cons] at hm
    simp only [List.mem_append, List.mem_singleton] at hm
    rcases hm with (hm | hm) | hm
    · exact download_file_out_not_backup net url (dbDir ++ [f]) fs m hm
    · simp [hm, isBackupMsg]
    · exact ih _ m hm

/-- After the whole download loop, a target whose URL produced a body holds
exactly the streamed bytes (later downloads go to other names). -/
theorem runDownloads_lookup_target (net : Net) (dbDir : Path)
    {l : List (String × String)} (fs : FS) (hnodup : (l.map Prod.fst).Nodup)
    {f url : String} (hmem : (f, url) ∈ l)
    {cl : Option Nat} {chunks : List Content} {mfOpt : Option String}
    (h : net url = .ok cl chunks mfOpt) :
    (runDownloads net dbDir l fs).1.lookupFile (dbDir ++ [f])
      = some (chunks.takeWhile (fun c => !c.isEmpty)).flatten := by
  induction l generalizing fs with
  | nil => simp at hmem
  | cons e rest ih =>
    rcases e with ⟨g, u⟩
    simp only [List.map_cons, List.nodup_cons] at hnodup
    obtain ⟨hg, hnodup'⟩ := hnodup
    rcases List.mem_cons.mp hmem with h' | h'
    · rw [Prod.mk.injEq] at h'
      obtain ⟨h1, h2⟩ := h'
      subst h1; subst h2
      have hfs1 : (runDownloads net dbDir ((f, url) :: rest) fs).1
          = (runDownloads net dbDir rest (download_file net url (dbDir ++ [f]) fs).fs).1 := by
        simp [runDownloads]
      rw [hfs1]
      have hframe : ∀ e ∈ rest, dbDir ++ [f] ≠ dbDir ++ [e.1] := by
        intro e he
        refine append_ne_append dbDir (fun hc => ?_)
        have : f = e.1 := by simpa using hc
        exact hg (this ▸ List.mem_map_of_mem Prod.fst he)
      rw [runDownloads_lookup_ne net dbDir rest _ hframe]
      exact download_file_lookup_dest net url (dbDir ++ [f]) fs h
    · have hfs1 : (runDownloads net dbDir ((g, u) :: rest) fs).1
          = (runDownloads net dbDir rest (download_file net u (dbDir ++ [g]) fs).fs).1 := by
        simp [runDownloads]
      rw [hfs1]
      exact ih _ hnodup' h'

/-- With backups disabled the run's final filesystem is just the download
loop's. -/
theorem updateAfterPrep_noBackup_fs (env : UEnv) (dbDir : Path) (fs : FS) (msgs0 : List Msg) :
    (updateAfterPrep env dbDir false fs msgs0).fs
      = (runDownloads env.net dbDir DATABASE_URLS fs).1 := by
  simp [updateAfterPrep]

/-- With backups disabled the run's output is the preparation messages
followed only by download-phase messages. -/
theorem updateAfterPrep_noBackup_out_eq (env : UEnv) (dbDir : Path) (fs : FS)
    (msgs0 : List Msg) :
    (updateAfterPrep env dbDir false fs msgs0).out
      = msgs0 ++ [Msg.downloadHeader dbDir]
        ++ (runDownloads env.net dbDir DATABASE_URLS fs).2.1
        ++ [Msg.summary ((runDownloads env.net dbDir DATABASE_URLS fs).2.2.countP
             (fun r => r.2)) DATABASE_URLS.length]
        ++ (if ((runDownloads env.net dbDir DATABASE_URLS fs).2.2.countP (fun r => r.2)
              == DATABASE_URLS.length)
            then [Msg.updateOk]
            else [Msg.updateFailed]
              ++ (if 0 < (runDownloads env.net dbDir DATABASE_URLS fs).2.2.countP
                    (fun r => r.2)
                  then [Msg.partialUpdate] else [])) := by
  simp [updateAfterPrep]

/-- With backups disabled, everything the run prints beyond its preparation
messages is a non-backup message. -/
theorem updateAfterPrep_noBackup_out (env : UEnv) (dbDir : Path) (fs : FS)
    (msgs0 : List Msg) :
    ∀ m ∈ (updateAfterPrep env dbDir false fs msgs0).out,
      m ∈ msgs0 ∨ isBackupMsg m = false := by
  intro m hm
  rw [updateAfterPrep_noBackup_out_eq] at hm
  simp only [List.mem_append, List.mem_singleton] at hm
  rcases hm with (((hm | hm) | hm) | hm) | hm
  · exact Or.inl hm
  · exact Or.inr (by simp [hm, isBackupMsg])
  · exact Or.inr (runDownloads_out_not_backup _ _ _ _ m hm)
  · exact Or.inr (by simp [hm, isBackupMsg])
  · refine Or.inr ?_
    split at hm
    · simp at hm; simp [hm, isBackupMsg]
    · simp only [List.mem_append] at hm
      rcases hm with hm | hm
      · simp at hm; simp [hm, isBackupMsg]
      · split at hm
        · simp at hm; simp [hm, isBackupMsg]
        · simp at hm

/-- `os.makedirs` of a directory leaves the presence of any strictly longer
path unchanged. -/
theorem FS.contains_makedirs_of_longer (fs : FS) {p q : Path} (h : p.length < q.length) :
    (fs.makedirs p).dirs.contains q = fs.dirs.contains q := by
  have hq : q ∉ p.inits := by
    intro hmem
    have hpre := (List.mem_inits q p).mp hmem
    have := hpre.length_le
    omega
  unfold FS.makedirs
  simp [List.contains, hq]

/-- **C8**: with `--no-backup`, the run never performs a backup: no file
outside the three destination paths changes (in particular every file in
the backup subdirectory is untouched), no backup-step message is printed,
the backup directory is not created, and a target whose URL produced a body
is simply overwritten in place with the downloaded bytes. -/
theorem C8_no_backup_skips_rotation (env : UEnv) (fs : FS) (dbDir : Path) :
    (∀ p : Path, (∀ f ∈ targetNames, p ≠ dbDir ++ [f]) →
       (main env fs (.run dbDir true)).2.1.lookupFile p = fs.lookupFile p) ∧
    (∀ m ∈ (main env fs (.run dbDir true)).2.2, isBackupMsg m = false) ∧
    ((main env fs (.run dbDir true)).2.1.dirs.contains (dbDir ++ ["backup"])
       = fs.dirs.contains (dbDir ++ ["backup"])) ∧
    (∀ f url, (f, url) ∈ DATABASE_URLS →
       ∀ cl chunks mfOpt, env.net url = HttpResult.ok cl chunks mfOpt →
         (fs.pathExists dbDir = true ∨ env.dbMkdirRaises = none) →
         (main env fs (.run dbDir true)).2.1.lookupFile (dbDir ++ [f])
           = some (chunks.takeWhile (fun c => !c.isEmpty)).flatten) := by
  have hfs_eq : (main env fs (.run dbDir true)).2.1
      = (update_database env dbDir false fs).fs := rfl
  have hout_eq : (main env fs (.run dbDir true)).2.2
      = [Msg.banner] ++ (update_database env dbDir false fs).out := rfl
  refine ⟨?_, ?_, ?_, ?_⟩
  · intro p hp
    have hframe : ∀ e ∈ DATABASE_URLS, p ≠ dbDir ++ [e.1] := fun e he =>
      hp e.1 (List.mem_map_of_mem Prod.fst he)
    rw [hfs_eq]
    by_cases hd : fs.pathExists dbDir = true
    · rw [show update_database env dbDir false fs = updateAfterPrep env dbDir false fs []
          from by simp [update_database, hd]]
      rw [updateAfterPrep_noBackup_fs]
      exact runDownloads_lookup_ne _ _ _ _ hframe
    · have hd' : fs.pathExists dbDir = false := by simpa using hd
      cases hmk : env.dbMkdirRaises with
      | some e =>
          rw [show update_database env dbDir false fs
              = ⟨false, fs, [.dirMissing dbDir, .creatingDir, .mkdirFailed e], []⟩
              from by simp [update_database, hd', hmk]]
      | none =>
          rw [show update_database env dbDir false fs
              = updateAfterPrep env dbDir false (fs.makedirs dbDir)
                  [.dirMissing dbDir, .creatingDir, .createdDir dbDir]
              from by simp [update_database, hd', hmk]]
          rw [updateAfterPrep_noBackup_fs]
          rw [runDownloads_lookup_ne _ _ _ _ hframe]
          rfl
  · intro m hm
    rw [hout_eq] at hm
    rcases List.mem_append.mp hm with hb | hm'
    · simp at hb; simp [hb, isBackupMsg]
    · by_cases hd : fs.pathExists dbDir = true
      · rw [show update_database env dbDir false fs = updateAfterPrep env dbDir false fs []
            from by simp [update_database, hd]] at hm'
        rcases updateAfterPrep_noBackup_out env dbDir fs [] m hm' with h0 | h0
        · simp at h0
        · exact h0
      · have hd' : fs.pathExists dbDir = false := by simpa using hd
        cases hmk : env.dbMkdirRaises with
        | some e =>
            rw [show update_database env dbDir false fs
                = ⟨false, fs, [.dirMissing dbDir, .creatingDir, .mkdirFailed e], []⟩
                from by simp [update_database, hd', hmk]] at hm'
            simp at hm'
            rcases hm' with hm' | hm' | hm' <;> simp [hm', isBackupMsg]
        | none =>
            rw [show update_database env dbDir false fs
                = updateAfterPrep env dbDir false (fs.makedirs dbDir)
                    [.dirMissing dbDir, .creatingDir, .createdDir dbDir]
                from by simp [update_database, hd', hmk]] at hm'
            rcases updateAfterPrep_noBackup_out env dbDir _ _ m hm' with h0 | h0
            · simp at h0
              rcases h0 with h0 | h0 | h0 <;> simp [h0, isBackupMsg]
            · exact h0
  · rw [hfs_eq]
    by_cases hd : fs.pathExists dbDir = true
    · rw [show update_database env dbDir false fs = updateAfterPrep env dbDir false fs []
          from by simp [update_database, hd]]
      rw [updateAfterPrep_noBackup_fs, runDownloads_dirs]
    · have hd' : fs.pathExists dbDir = false := by simpa using hd
      cases hmk : env.dbMkdirRaises with
      | some e =>
          rw [show update_database env dbDir false fs
              = ⟨false, fs, [.dirMissing dbDir, .creatingDir, .mkdirFailed e], []⟩
              from by simp [update_database, hd', hmk]]
      | none =>
          rw [show update_database env dbDir false fs
              = updateAfterPrep env dbDir false (fs.makedirs dbDir)
                  [.dirMissing dbDir, .creatingDir, .createdDir dbDir]
              from by simp [update_database, hd', hmk]]
          rw [updateAfterPrep_noBackup_fs, runDownloads_dirs]
          exact FS.contains_makedirs_of_longer fs (by simp)
  · intro f url hmem cl chunks mfOpt hnet hprep
    have hnodup : (DATABASE_URLS.map Prod.fst).Nodup := by decide
    rw [hfs_eq]
    by_cases hd : fs.pathExists dbDir = true
    · rw [show update_database env dbDir false fs = updateAfterPrep env dbDir false fs []
          from by simp [update_database, hd]]
      rw [updateAfterPrep_noBackup_fs]
      exact runDownloads_lookup_target env.net dbDir fs hnodup hmem hnet
    · have hd' : fs.pathExists dbDir = false := by simpa using hd
      have hmk : env.dbMkdirRaises = none := by
        rcases hprep with h | h
        · exact absurd h (by simp [hd'])
        · exact h
      rw [show update_database env dbDir false fs
          = updateAfterPrep env dbDir false (fs.makedirs dbDir)
              [.dirMissing dbDir, .creatingDir, .createdDir dbDir]
          from by simp [update_database, hd', hmk]]
      rw [updateAfterPrep_noBackup_fs]
      exact runDownloads_lookup_target env.net dbDir _ hnodup hmem hnet

/-- A run environment with a plain streaming network and no OS failures. -/
def envBody : UEnv := ⟨netBody, benvNone, none⟩

/-- A filesystem with the database directory, one target file and one prior
backup of it. -/
def fsPre : FS :=
  ⟨[["db"], ["db", "backup"]],
   [(["db", "main.cvd"], [9]), (["db", "backup", "main.cvd"], [7])]⟩

/-- Witness for C8: with `--no-backup`, a pre-existing backup entry is
untouched and the pre-existing target file is overwritten in place. -/
theorem C8_witness :
    (main envBody fsPre (.run ["db"] true)).2.1.lookupFile ["db", "backup", "main.cvd"]
      = fsPre.lookupFile ["db", "backup", "main.cvd"] ∧
    (main envBody fsPre (.run ["db"] true)).2.1.lookupFile ["db", "main.cvd"]
      = some (([[1, 2], [3, 4]] : List Content).takeWhile (fun c => !c.isEmpty)).flatten := by
  have h := C8_no_backup_skips_rotation envBody fsPre ["db"]
  exact ⟨h.1 ["db", "backup", "main.cvd"] (by decide),
         h.2.2.2 "main.cvd" "https://database.clamav.net/main.cvd" (by decide)
           (some 4) [[1, 2], [3, 4]] none rfl (Or.inl (by decide))⟩

/-! ### Claim C4 -/

/-- Number of directory entries at path `p` (a well-formed filesystem has at
most one). -/
def countKey (l : List (Path × Content)) (p : Path) : Nat :=
  l.countP (fun e => e.1 == p)

/-- Filtering can only drop entries. -/
theorem countKey_filter_le (l : List (Path × Content)) (q p : Path) :
    countKey (l.filter (fun e => !(e.1 == q))) p ≤ countKey l p :=
  List.Sublist.countP_le _ (List.filter_sublist l)

/-- Writing a file keeps at most one entry per path. -/
theorem countKey_setFile (fs : FS) (q : Path) (c : Content) (p : Path)
    (h : countKey fs.files p ≤ 1) : countKey (fs.setFile q c).files p ≤ 1 := by
  unfold FS.setFile countKey
  rw [List.countP_cons]
  by_cases hpq : q = p
  · subst hpq
    have h0 : List.countP (fun e => e.1 == q) (fs.files.filter (fun e => !(e.1 == q))) = 0 := by
      rw [List.countP_eq_zero]
      intro a ha
      have := List.of_mem_filter ha
      simp at this ⊢
      exact this
    simp [h0]
  · have h1 : (((q, c) : Path × Content).1 == p) = false := by simp [hpq]
    rw [h1]
    simpa using le_trans (countKey_filter_le fs.files q p) h

/-- Removing a file keeps at most one entry per path. -/
theorem countKey_removeFile (fs : FS) (q p : Path) (h : countKey fs.files p ≤ 1) :
    countKey (fs.removeFile q).files p ≤ 1 :=
  le_trans (countKey_filter_le fs.files q p) h

/-- Renaming a file keeps at most one entry per path. -/
theorem countKey_rename (fs : FS) (src dst p : Path) (h : countKey fs.files p ≤ 1) :
    countKey (fs.rename src dst).files p ≤ 1 := by
  unfold FS.rename
  cases fs.lookupFile src with
  | none => exact h
  | some c => exact countKey_setFile _ _ _ _ (countKey_removeFile fs src p h)

/-- The filesystem left behind by the rotation loop, on either exit path. -/
def postFS : Except (FS × List Msg × String) (FS × Bool × List Msg) → FS
  | .error (fs, _, _) => fs
  | .ok (fs, _, _) => fs

/-- The rotation loop preserves "at most one entry per path". -/
theorem backupLoop_countKey (env : BEnv) (dbDir : Path) (p : Path) :
    ∀ (names : List String) (fs : FS) (hf : Bool) (msgs : List Msg),
      countKey fs.files p ≤ 1 →
      countKey (postFS (backupLoop env dbDir names fs hf msgs)).files p ≤ 1 := by
  intro names
  induction names with
  | nil => intro fs hf msgs h; exact h
  | cons f rest ih =>
    intro fs hf msgs h
    by_cases hfp : fs.pathExists (dbDir ++ [f]) = true
    · by_cases hbd : fs.pathExists (dbDir ++ ["backup"]) = true
      · by_cases hbp : fs.pathExists (dbDir ++ ["backup", f]) = true
        · cases hrm : env.removeRaises (dbDir ++ ["backup", f]) with
          | some e =>
              simp only [backupLoop, hfp, hbd, hbp, hrm, if_true]
              exact ih _ _ _ h
          | none =>
              cases hrn : env.renameRaises (dbDir ++ [f]) (dbDir ++ ["backup", f]) with
              | some e =>
                  simp only [backupLoop, hfp, hbd, hbp, hrm, hrn, if_true]
                  exact ih _ _ _ (countKey_removeFile fs _ p h)
              | none =>
                  simp only [backupLoop, hfp, hbd, hbp, hrm, hrn, if_true]
                  exact ih _ _ _ (countKey_rename _ _ _ p (countKey_removeFile fs _ p h))
        · have hbp' : fs.pathExists (dbDir ++ ["backup", f]) = false := by simpa using hbp
          cases hrn : env.renameRaises (dbDir ++ [f]) (dbDir ++ ["backup", f]) with
          | some e =>
              simp only [backupLoop, hfp, hbd, hbp', hrn, if_true, Bool.false_eq_true, if_false]
              exact ih _ _ _ h
          | none =>
              simp only [backupLoop, hfp, hbd, hbp', hrn, if_true, Bool.false_eq_true, if_false]
              exact ih _ _ _ (countKey_rename _ _ _ p h)
      · have hbd' : fs.pathExists (dbDir ++ ["backup"]) = false := by simpa using hbd
        cases hmk : env.mkdirRaises with
        | some e =>
            simp only [backupLoop, hfp, hbd', hmk, if_true, Bool.false_eq_true, if_false]
            exact h
        | none =>
            have hmkfiles : (fs.makedirs (dbDir ++ ["backup"])).files = fs.files := rfl
            by_cases hbp : (fs.makedirs (dbDir ++ ["backup"])).pathExists (dbDir ++ ["backup", f]) = true
            · cases hrm : env.removeRaises (dbDir ++ ["backup", f]) with
              | some e =>
                  simp only [backupLoop, hfp, hbd', hmk, hbp, hrm, if_true, Bool.false_eq_true,
                    if_false]
                  exact ih _ _ _ (by rw [show countKey (fs.makedirs (dbDir ++ ["backup"])).files p
                    = countKey fs.files p from rfl]; exact h)
              | none =>
                  cases hrn : env.renameRaises (dbDir ++ [f]) (dbDir ++ ["backup", f]) with
                  | some e =>
                      simp only [backupLoop, hfp, hbd', hmk, hbp, hrm, hrn, if_true,
                        Bool.false_eq_true, if_false]
                      exact ih _ _ _ (countKey_removeFile _ _ p (by
                        rw [show countKey (fs.makedirs (dbDir ++ ["backup"])).files p
                          = countKey fs.files p from rfl]; exact h))
                  | none =>
                      simp only [backupLoop, hfp, hbd', hmk, hbp, hrm, hrn, if_true,
                        Bool.false_eq_true, if_false]
                      exact ih _ _ _ (countKey_rename _ _ _ p (countKey_removeFile _ _ p (by
                        rw [show countKey (fs.makedirs (dbDir ++ ["backup"])).files p
                          = countKey fs.files p from rfl]; exact h)))
            · have hbp' : (fs.makedirs (dbDir ++ ["backup"])).pathExists (dbDir ++ ["backup", f])
                  = false := by simpa using hbp
              cases hrn : env.renameRaises (dbDir ++ [f]) (dbDir ++ ["backup", f]) with
              | some e =>
                  simp only [backupLoop, hfp, hbd', hmk, hbp', hrn, if_true, Bool.false_eq_true,
                    if_false]
                  exact ih _ _ _ (by rw [show countKey (fs.makedirs (dbDir ++ ["backup"])).files p
                    = countKey fs.files p from rfl]; exact h)
              | none =>
                  simp only [backupLoop, hfp, hbd', hmk, hbp', hrn, if_true, Bool.false_eq_true,
                    if_false]
                  exact ih _ _ _ (countKey_rename _ _ _ p (by
                    rw [show countKey (fs.makedirs (dbDir ++ ["backup"])).files p
                      = countKey fs.files p from rfl]; exact h))
    · have hfp' : fs.pathExists (dbDir ++ [f]) = false := by simpa using hfp
      simp only [backupLoop, hfp', Bool.false_eq_true, if_false]
      exact ih _ _ _ h

/-- The filesystem `backup_existing_files` returns is the loop's, on either
exit path. -/
theorem backup_existing_files_fs (env : BEnv) (dbDir : Path) (fs : FS) :
    (backup_existing_files env dbDir fs).2.1
      = postFS (backupLoop env dbDir targetNames fs false []) := by
  unfold backup_existing_files
  cases backupLoop env dbDir targetNames fs false [] with
  | error r => rfl
  | ok r => rfl

/-- **C4**: the backup subdirectory never holds more than one entry for a
target filename: whatever the oracles do, a rotation starting from a state
with at most one backup entry for that name ends in a state with at most
one — so rotating repeatedly never accumulates backups. -/
theorem C4_at_most_one_backup_per_name (env : BEnv) (dbDir : Path) (fs : FS) (f : String)
    (h : countKey fs.files (dbDir ++ ["backup", f]) ≤ 1) :
    countKey (backup_existing_files env dbDir fs).2.1.files (dbDir ++ ["backup", f]) ≤ 1 := by
  rw [backup_existing_files_fs]
  exact backupLoop_countKey env dbDir (dbDir ++ ["backup", f]) targetNames fs false [] h

/-- Witness for C4 at a concrete state already holding one backup. -/
theorem C4_witness :
    countKey fsPre.files (["db"] ++ ["backup", "main.cvd"]) ≤ 1 ∧
    countKey (backup_existing_files benvNone ["db"] fsPre).2.1.files
      (["db"] ++ ["backup", "main.cvd"]) ≤ 1 :=
  ⟨by decide,
   C4_at_most_one_backup_per_name benvNone ["db"] fsPre "main.cvd" (by decide)⟩

/-! ### Claim C6 -/

/-- When every listed file exists, the backup directory exists and no prior
backups are present, the rotation loop finishes normally and prints, per
file, a warning if its rename raised and a success message otherwise —
regardless of which renames fail. -/
theorem backupLoop_trace (env : BEnv) (dbDir : Path) :
    ∀ (names : List String) (fs : FS) (hf : Bool) (msgs : List Msg),
      names.Nodup →
      "backup" ∉ names →
      (∀ g ∈ names, fs.pathExists (dbDir ++ [g]) = true) →
      fs.pathExists (dbDir ++ ["backup"]) = true →
      (∀ g ∈ names, fs.pathExists (dbDir ++ ["backup", g]) = false) →
      ∃ fs' : FS, backupLoop env dbDir names fs hf msgs
        = .ok (fs', hf || !names.isEmpty,
            msgs ++ names.map (fun g =>
              match env.renameRaises (dbDir ++ [g]) (dbDir ++ ["backup", g]) with
              | some e => Msg.fileBackupWarning g e
              | none => Msg.backedUp g)) := by
  intro names
  induction names with
  | nil =>
    intro fs hf msgs _ _ _ _ _
    exact ⟨fs, by simp [backupLoop]⟩
  | cons f rest ih =>
    intro fs hf msgs hnodup hnb hex hbd hnbp
    simp only [List.nodup_cons] at hnodup
    obtain ⟨hf_not, hnodup'⟩ := hnodup
    have hnb' : "backup" ∉ rest := fun hc => hnb (List.mem_cons_of_mem _ hc)
    have hfp : fs.pathExists (dbDir ++ [f]) = true := hex f (by simp)
    have hbpf : fs.pathExists (dbDir ++ ["backup", f]) = false := hnbp f (by simp)
    have hnbf : "backup" ≠ f := fun hc => hnb (by simp [hc])
    cases hrn : env.renameRaises (dbDir ++ [f]) (dbDir ++ ["backup", f]) with
    | some e =>
        obtain ⟨fs', hrec⟩ := ih fs true (msgs ++ [Msg.fileBackupWarning f e]) hnodup' hnb'
          (fun g hg => hex g (List.mem_cons_of_mem _ hg)) hbd
          (fun g hg => hnbp g (List.mem_cons_of_mem _ hg))
        refine ⟨fs', ?_⟩
        simp only [backupLoop, hfp, hbd, hbpf, hrn, if_true, Bool.false_eq_true, if_false]
        rw [hrec]
        simp [hrn]
    | none =>
        have hex1 : ∀ g ∈ rest,
            (fs.rename (dbDir ++ [f]) (dbDir ++ ["backup", f])).pathExists (dbDir ++ [g])
              = true := by
          intro g hg
          have hg_ne : g ≠ f := fun hc => hf_not (hc ▸ hg)
          rw [FS.pathExists_rename_ne fs (append_ne_append dbDir (by simp [hg_ne]))
            (append_ne_append dbDir (by simp))]
          exact hex g (List.mem_cons_of_mem _ hg)
        have hbd1 : (fs.rename (dbDir ++ [f]) (dbDir ++ ["backup", f])).pathExists
            (dbDir ++ ["backup"]) = true := by
          rw [FS.pathExists_rename_ne fs (append_ne_append dbDir (by simp [hnbf]))
            (append_ne_append dbDir (by simp))]
          exact hbd
        have hnbp1 : ∀ g ∈ rest,
            (fs.rename (dbDir ++ [f]) (dbDir ++ ["backup", f])).pathExists
              (dbDir ++ ["backup", g]) = false := by
          intro g hg
          have hg_ne : g ≠ f := fun hc => hf_not (hc ▸ hg)
          rw [FS.pathExists_rename_ne fs (append_ne_append dbDir (by simp))
            (append_ne_append dbDir (by simp [hg_ne]))]
          exact hnbp g (List.mem_cons_of_mem _ hg)
        obtain ⟨fs', hrec⟩ := ih (fs.rename (dbDir ++ [f]) (dbDir ++ ["backup", f])) true
          (msgs ++ [Msg.backedUp f]) hnodup' hnb' hex1 hbd1 hnbp1
        refine ⟨fs', ?_⟩
        simp only [backupLoop, hfp, hbd, hbpf, hrn, if_true, Bool.false_eq_true, if_false]
        rw [hrec]
        simp [hrn]

/-- **C6**: when one target's rename into the backup directory raises, that
file's rotation is skipped with a warning; every other existing target is
still rotated (its success message is printed), the backup step still
reports success, and the run still goes on to attempt all three downloads. -/
theorem C6_rotation_failure_is_local (env : BEnv) (dbDir : Path) (fs : FS) (f e : String)
    (hfmem : f ∈ targetNames)
    (hrn_f : env.renameRaises (dbDir ++ [f]) (dbDir ++ ["backup", f]) = some e)
    (hrn_other : ∀ g, g ≠ f → env.renameRaises (dbDir ++ [g]) (dbDir ++ ["backup", g]) = none)
    (hex : ∀ g ∈ targetNames, fs.pathExists (dbDir ++ [g]) = true)
    (hbd : fs.pathExists (dbDir ++ ["backup"]) = true)
    (hnbp : ∀ g ∈ targetNames, fs.pathExists (dbDir ++ ["backup", g]) = false) :
    (backup_existing_files env dbDir fs).1 = true ∧
    Msg.fileBackupWarning f e ∈ (backup_existing_files env dbDir fs).2.2 ∧
    (∀ g ∈ targetNames, g ≠ f → Msg.backedUp g ∈ (backup_existing_files env dbDir fs).2.2) ∧
    (∀ (net : Net) (mk : Option String), fs.pathExists dbDir = true →
       (update_database ⟨net, env, mk⟩ dbDir true fs).results.length = 3) := by
  obtain ⟨fs', hrec⟩ := backupLoop_trace env dbDir targetNames fs false []
    (by decide) (by decide) hex hbd hnbp
  have h1 : (backup_existing_files env dbDir fs).1 = true := by
    unfold backup_existing_files
    rw [hrec]
  have hout : (backup_existing_files env dbDir fs).2.2
      = targetNames.map (fun g =>
          match env.renameRaises (dbDir ++ [g]) (dbDir ++ ["backup", g]) with
          | some e1 => Msg.fileBackupWarning g e1
          | none => Msg.backedUp g) := by
    unfold backup_existing_files
    rw [hrec]
    simp [targetNames, DATABASE_URLS]
  refine ⟨h1, ?_, ?_, ?_⟩
  · rw [hout]
    have hfe : Msg.fileBackupWarning f e
        = (fun g => match env.renameRaises (dbDir ++ [g]) (dbDir ++ ["backup", g]) with
            | some e1 => Msg.fileBackupWarning g e1
            | none => Msg.backedUp g) f := by
      simp [hrn_f]
    rw [hfe]
    exact List.mem_map_of_mem _ hfmem
  · intro g hg hne
    rw [hout]
    have hge : Msg.backedUp g
        = (fun g => match env.renameRaises (dbDir ++ [g]) (dbDir ++ ["backup", g]) with
            | some e1 => Msg.fileBackupWarning g e1
            | none => Msg.backedUp g) g := by
      simp [hrn_other g hne]
    rw [hge]
    exact List.mem_map_of_mem _ hg
  · intro net mk hdd
    rw [show update_database ⟨net, env, mk⟩ dbDir true fs
        = updateAfterPrep ⟨net, env, mk⟩ dbDir true fs [] from by simp [update_database, hdd]]
    rw [updateAfterPrep_results]
    simp [DATABASE_URLS]

/-- A backup oracle whose rename raises exactly for the daily target under
`["db"]`. -/
def benvDailyLocked : BEnv :=
  ⟨none, fun _ => none,
   fun src _ => if src = ["db", "daily.cvd"] then some "locked" else none⟩

/-- A filesystem with the database and backup directories and all three
target files present. -/
def fsAllTargets : FS :=
  ⟨[["db"], ["db", "backup"]],
   [(["db", "main.cvd"], [1]), (["db", "daily.cvd"], [2]), (["db", "bytecode.cvd"], [3])]⟩

/-- Witness for C6: the daily rename fails, the other two rotations still
happen and the step reports success. -/
theorem C6_witness :
    (backup_existing_files benvDailyLocked ["db"] fsAllTargets).1 = true ∧
    Msg.fileBackupWarning "daily.cvd" "locked"
      ∈ (backup_existing_files benvDailyLocked ["db"] fsAllTargets).2.2 ∧
    Msg.backedUp "main.cvd" ∈ (backup_existing_files benvDailyLocked ["db"] fsAllTargets).2.2 ∧
    Msg.backedUp "bytecode.cvd"
      ∈ (backup_existing_files benvDailyLocked ["db"] fsAllTargets).2.2 := by
  have h := C6_rotation_failure_is_local benvDailyLocked ["db"] fsAllTargets "daily.cvd" "locked"
    (by decide) (by decide) (by intro g hg; simp [benvDailyLocked, hg]) (by decide) (by decide)
    (by decide)
  exact ⟨h.1, h.2.1, h.2.2.1 "main.cvd" (by decide) (by decide),
         h.2.2.1 "bytecode.cvd" (by decide) (by decide)⟩
